import Mathlib

/-!
Shallow embedding of the obscura unlinker server (session store, deposit
matcher, jitter engine, batch processor, key enclave, HTTP request-wallet
route) and proofs about it.

Sources embedded:
  - server/src/db/memdb.js            (Session / WithdrawalJob shapes)
  - server/src/unlinker/engine.js     (enqueueWithdrawal)
  - server/src/blockchain/escrowListener.js  (Deposited event handler)
  - server/src/blockchain/sendFunds.js       (depositId argument handling)
  - server/src/redis/queue.js         (queue helpers, batch processor tick)
  - server/src/tee/tee.js             (encryptForUser, generatePrivateKeyInsideTEE)
  - server/src/api/requestWallet.js   (POST /api/request-wallet handler)
  - the repository's own end-to-end script (decodeEncryptedPrivateKey)

JavaScript specifics modelled explicitly: BigInt division truncates toward
zero (Int.tdiv); `x || 1n` yields 1n exactly when x is 0n; object fields
read but never written are Option values that stay none; the Redis list is
a Lean list; records keyed by fresh uuids are association-free lists in
insertion order.
-/

namespace Obscura

/-- Session statuses.  The stored type in memdb.js is the union
awaiting_deposit | deposit_detected | wallet_generated | withdrawal_queued
| completed; the spec's status set and the front-end client additionally
name a failed state, so the embedding carries all six constructors and the
proofs show which ones the server ever assigns. -/
inductive SessionStatus where
  | awaiting_deposit
  | deposit_detected
  | wallet_generated
  | withdrawal_queued
  | completed
  | failed
deriving DecidableEq

/-- Job statuses, per the WithdrawalJob typedef in memdb.js. -/
inductive JobStatus where
  | pending
  | completed
  | failed
deriving DecidableEq

/-- Session record, per the Session typedef in memdb.js.  The typedef does
not declare a depositId property and no code ever assigns one, but
engine.js reads session.depositId; the field is therefore present here as
an Option that every constructor of the system leaves at none. -/
structure Session where
  id : String
  sessionToken : String
  userAddress : String
  expectedAmount : String
  status : SessionStatus
  newAddress : Option String
  encryptedKeyForUser : Option String
  attestationReport : Option String
  depositTxHash : Option String
  depositId : Option String
  withdrawTxHash : Option String
  createdAt : String
  updatedAt : String
deriving DecidableEq

/-- Withdrawal job record, per the WithdrawalJob typedef in memdb.js and
the literal built in engine.js. -/
structure WithdrawalJob where
  id : String
  sessionToken : String
  newAddress : String
  normalizedAmount : Int
  depositId : Option String
  executeAfter : Int
  status : JobStatus
deriving DecidableEq

/-- Whole mutable state: memdb.sessions, memdb.pendingWithdrawals (both
records keyed by fresh uuids, modelled as lists in insertion order) and
the Redis list pending_withdraws. -/
structure SysState where
  sessions : List Session
  pendingWithdrawals : List WithdrawalJob
  queue : List String
deriving DecidableEq

/-- JavaScript BigInt division: truncation toward zero. -/
def bigDiv (a b : Int) : Int := Int.tdiv a b

/-- Decimal-digit accumulator for parseBigInt?. -/
def parseDigits : Nat → List Char → Option Nat
  | acc, [] => some acc
  | acc, c :: cs =>
    if c.isDigit then parseDigits (acc * 10 + (c.toNat - 48)) cs else none

/-- Models the JavaScript BigInt() constructor on the optionally signed
decimal strings this system stores (BigInt's further grammar — hex forms,
surrounding whitespace, the empty string — is not produced on the paths
the claims exercise); none models a thrown SyntaxError. -/
def parseBigInt? (s : String) : Option Int :=
  match s.toList with
  | [] => none
  | '-' :: rest =>
    match rest with
    | [] => none
    | _ => (parseDigits 0 rest).map (fun n => -(n : Int))
  | l => (parseDigits 0 l).map (fun n => (n : Int))

/-- JavaScript String.prototype.toLowerCase on the ASCII strings this
system handles (0x-prefixed hex addresses and uuids): per-character ASCII
lowercasing. -/
def toLowerCase (s : String) : String := String.mk (s.toList.map Char.toLower)

/-- Per-match oracle inputs consumed by enqueueWithdrawal: the sampled
jitter randomInt(-30,40), the sampled delay randomInt(1,10), Date.now(),
the fresh uuid job id and the ISO timestamps taken during the match. -/
structure EnqueueCtx where
  ppm : Int
  delaySec : Int
  nowMs : Int
  jobId : String
  matchIso : String
  queuedIso : String
deriving DecidableEq

/-- enqueueWithdrawal from engine.js.  Throws (error) when the session has
no newAddress or when BigInt(session.expectedAmount) throws; otherwise
computes the jittered normalizedAmount with BigInt arithmetic, records the
job in memdb.pendingWithdrawals, pushes its id on the Redis list and marks
the session withdrawal_queued.  Returns the updated session plus the
updated job table and queue. -/
def enqueueWithdrawal (ctx : EnqueueCtx) (session : Session)
    (jobs : List WithdrawalJob) (queue : List String) :
    Except String (Session × List WithdrawalJob × List String) :=
  match session.newAddress with
  | none => .error "Session is missing newAddress for withdrawal"
  | some addr =>
    match parseBigInt? session.expectedAmount with
    | none => .error "Cannot convert expectedAmount to a BigInt"
    | some expected =>
      let normalizedAmount := expected + bigDiv (expected * ctx.ppm) 1000000
      let executeAfter := ctx.nowMs + ctx.delaySec * 1000
      let job : WithdrawalJob :=
        { id := ctx.jobId
          sessionToken := session.sessionToken
          newAddress := addr
          normalizedAmount := normalizedAmount
          depositId := session.depositId
          executeAfter := executeAfter
          status := .pending }
      .ok ({ session with status := .withdrawal_queued, updatedAt := ctx.queuedIso },
           jobs ++ [job], queue ++ [ctx.jobId])

/-- A Deposited(from, amount, depositId) event together with its
transaction hash, as delivered by the chain client. -/
structure DepositEvent where
  from_ : String
  amount : Int
  depositId : Int
  txHash : String
deriving DecidableEq

/-- The per-session match test of the Deposited handler in
escrowListener.js: same lower-cased address, status awaiting_deposit,
BigInt(expectedAmount) parses, and the absolute difference is within
expected / 10000n || 1n. -/
def depositMatches (fromLc : String) (amount : Int) (s : Session) : Bool :=
  s.userAddress = fromLc &&
  s.status = SessionStatus.awaiting_deposit &&
  match parseBigInt? s.expectedAmount with
  | none => false
  | some expected =>
    let diff := if expected > amount then expected - amount else amount - expected
    let tolerance := if bigDiv expected 10000 = 0 then 1 else bigDiv expected 10000
    decide (diff ≤ tolerance)

/-- Result of the matcher's scan over memdb.sessions.  ok is false when
enqueueWithdrawal threw, which aborts the rest of the scan (the handler's
try/catch wraps the whole loop). -/
structure LoopOut where
  sessions : List Session
  jobs : List WithdrawalJob
  queue : List String
  ok : Bool
deriving DecidableEq

/-- The for-loop of the Deposited handler: for each session in insertion
order, if it matches, set status = deposit_detected, record the deposit
transaction hash, bump updatedAt, then call enqueueWithdrawal; an
exception from enqueueWithdrawal stops the loop with every earlier
mutation retained.  k counts matches so far and indexes the oracle. -/
def matchLoop (fromLc : String) (amount : Int) (txHash : String)
    (ctx : Nat → EnqueueCtx) :
    List Session → Nat → List WithdrawalJob → List String → LoopOut
  | [], _, jobs, queue => ⟨[], jobs, queue, true⟩
  | s :: rest, k, jobs, queue =>
    if depositMatches fromLc amount s then
      let s1 := { s with status := SessionStatus.deposit_detected,
                         depositTxHash := some txHash,
                         updatedAt := (ctx k).matchIso }
      match enqueueWithdrawal (ctx k) s1 jobs queue with
      | .error _ => ⟨s1 :: rest, jobs, queue, false⟩
      | .ok (s2, jobs2, queue2) =>
        let out := matchLoop fromLc amount txHash ctx rest (k + 1) jobs2 queue2
        ⟨s2 :: out.sessions, out.jobs, out.queue, out.ok⟩
    else
      let out := matchLoop fromLc amount txHash ctx rest k jobs queue
      ⟨s :: out.sessions, out.jobs, out.queue, out.ok⟩

/-- One delivery of a Deposited event to the matcher (the event callback
registered by watchDeposits in escrowListener.js): lower-case the sender,
scan the sessions, advance matches and enqueue their withdrawal jobs. -/
def handleDepositedEvent (ev : DepositEvent) (ctx : Nat → EnqueueCtx)
    (st : SysState) : SysState :=
  let fromLc := (toLowerCase ev.from_)
  let out := matchLoop fromLc ev.amount ev.txHash ctx st.sessions 0
    st.pendingWithdrawals st.queue
  ⟨out.sessions, out.jobs, out.queue⟩

/-- The depositId argument that sendFundsToNewAddress passes to the
on-chain operatorWithdraw call: 0n when the job's depositId is null or
fails to parse as a BigInt, else the parsed value. -/
def depositIdForWithdraw (depositIdString : Option String) : Int :=
  match depositIdString with
  | none => 0
  | some s =>
    match parseBigInt? s with
    | none => 0
    | some v => v

/-- Eligibility filter at the head of a batch-processor tick in queue.js:
walk the Redis list, drop ids with no job in memdb.pendingWithdrawals,
jobs not pending, and jobs with executeAfter > now. -/
def dueFilter (table : List WithdrawalJob) (queueIds : List String)
    (now : Int) : List WithdrawalJob :=
  queueIds.filterMap (fun jobId =>
    match table.find? (fun j => j.id = jobId) with
    | none => none
    | some job =>
      if job.status = JobStatus.pending && decide (job.executeAfter ≤ now)
      then some job else none)

/-- Swap of two list positions (no-op when either index is out of
range), used by the Fisher–Yates shuffle. -/
def listSwap {α : Type} (l : List α) (i j : Nat) : List α :=
  match l.get? i, l.get? j with
  | some a, some b => (l.set i b).set j a
  | _, _ => l

/-- Fisher–Yates shuffle from queue.js, with the sampled swap target for
each index i supplied by the oracle r (Math.floor(Math.random()*(i+1))).
Counts down from arr.length - 1 to 1. -/
def fisherYatesAux {α : Type} (r : Nat → Nat) : Nat → List α → List α
  | 0, arr => arr
  | Nat.succ i, arr => fisherYatesAux r i (listSwap arr (i + 1) (r (i + 1)))

/-- The in-place shuffle(arr) of queue.js as a pure function. -/
def fisherYates {α : Type} (r : Nat → Nat) (arr : List α) : List α :=
  fisherYatesAux r (arr.length - 1) arr

/-- Outcome of one sendFundsToNewAddress submission: success carries the
transaction hash and the ISO timestamp written to the session; failure
(a thrown error, including a mined receipt with non-success status)
carries the Date.now() read in the catch block and the sampled
randomInt(30,120) backoff. -/
inductive SubmitOutcome where
  | success (txHash : String) (isoNow : String)
  | failure (failNowMs : Int) (delaySec : Int)
deriving DecidableEq

/-- The loop body of a batch-processor tick for one due job.  On success:
the job is marked completed and then deleted from memdb.pendingWithdrawals,
its session (looked up by token) gets the withdrawTxHash and advances to
completed, and the id is removed from the Redis list (lRem removes every
occurrence).  On failure: the job object is left pending with executeAfter
moved to Date.now() + randomInt(30,120)*1000 and nothing is removed. -/
def processJob (outcome : String → SubmitOutcome) (st : SysState)
    (job : WithdrawalJob) : SysState :=
  match outcome job.id with
  | .success txHash isoNow =>
    { sessions := st.sessions.map (fun s =>
        if s.sessionToken = job.sessionToken then
          { s with withdrawTxHash := some txHash,
                   status := SessionStatus.completed,
                   updatedAt := isoNow }
        else s)
      pendingWithdrawals := st.pendingWithdrawals.filter (fun j => j.id ≠ job.id)
      queue := st.queue.filter (fun i => i ≠ job.id) }
  | .failure failNowMs delaySec =>
    { st with pendingWithdrawals := st.pendingWithdrawals.map (fun j =>
        if j.id = job.id then
          { j with status := JobStatus.pending,
                   executeAfter := failNowMs + delaySec * 1000 }
        else j) }

/-- One tick of the batch processor in queue.js: snapshot the queue,
filter the due pending jobs, shuffle them, then process each in order. -/
def processorTick (now : Int) (r : Nat → Nat)
    (outcome : String → SubmitOutcome) (st : SysState) : SysState :=
  let dueJobs := dueFilter st.pendingWithdrawals st.queue now
  (fisherYates r dueJobs).foldl (processJob outcome) st

/-- What generatePrivateKeyInsideTEE hands back to the route (keyRef is
retained server side, never stored on the session). -/
structure TeeOutput where
  encryptedKeyForUser : String
  attestationReport : String
  newAddress : String
  keyRef : String
deriving DecidableEq

/-- JSON body of POST /api/request-wallet as the handler destructures it.
The handler reads message, signature and depositAmount;
expectedAmount is the field name the spec documents, carried here to show
the handler never reads it.  Fields are the string values of the JSON
properties, none when the property is absent. -/
structure RequestBody where
  message : Option String
  signature : Option String
  depositAmount : Option String
  expectedAmount : Option String
deriving DecidableEq

/-- JavaScript truthiness of an optional string: absent and the empty
string are falsy. -/
def truthy (o : Option String) : Bool :=
  match o with
  | none => false
  | some s => s ≠ ""

/-- Response of the request-wallet route: HTTP status code plus the
returned sessionToken and newAddress when the code is 201. -/
structure HttpResponse where
  statusCode : Nat
  sessionToken : Option String
  newAddress : Option String
deriving DecidableEq

/-- The POST /api/request-wallet handler from api/requestWallet.js.
recover models ethers.verifyMessage (none = throw); tee the enclave
output; sessionToken / sessionId the two fresh uuids; nowIso the ISO
timestamp.  Missing or falsy body fields give 400 before anything else;
a failed recovery gives 400; otherwise a session is inserted with status
awaiting_deposit, userAddress the lower-cased recovered signer and
expectedAmount = String(depositAmount).  The best-effort gas pre-fund
touches no session state whether it succeeds or fails, so it does not
appear in the state transition. -/
def requestWalletHandler (recover : String → String → Option String)
    (tee : TeeOutput) (sessionToken sessionId nowIso : String)
    (body : RequestBody) (st : SysState) : HttpResponse × SysState :=
  if !(truthy body.message && truthy body.signature && truthy body.depositAmount) then
    (⟨400, none, none⟩, st)
  else
    match recover (body.message.getD "") (body.signature.getD "") with
    | none => (⟨400, none, none⟩, st)
    | some userAddress =>
      let session : Session :=
        { id := sessionId
          sessionToken := sessionToken
          userAddress := toLowerCase userAddress
          expectedAmount := body.depositAmount.getD ""
          status := SessionStatus.awaiting_deposit
          newAddress := some tee.newAddress
          encryptedKeyForUser := some tee.encryptedKeyForUser
          attestationReport := some tee.attestationReport
          depositTxHash := none
          depositId := none
          withdrawTxHash := none
          createdAt := nowIso
          updatedAt := nowIso }
      (⟨201, some sessionToken, some tee.newAddress⟩,
       { st with sessions := st.sessions ++ [session] })

/-- States reachable by the server from the empty stores through its three
state-mutating entry points: the request-wallet route, a Deposited event
delivery, and a batch-processor tick. -/
inductive Reachable : SysState → Prop where
  | init : Reachable ⟨[], [], []⟩
  | request (recover : String → String → Option String) (tee : TeeOutput)
      (sessionToken sessionId nowIso : String) (body : RequestBody)
      {st : SysState} (h : Reachable st) :
      Reachable (requestWalletHandler recover tee sessionToken sessionId nowIso body st).2
  | deposited (ev : DepositEvent) (ctx : Nat → EnqueueCtx) {st : SysState}
      (h : Reachable st) : Reachable (handleDepositedEvent ev ctx st)
  | tick (now : Int) (r : Nat → Nat) (outcome : String → SubmitOutcome)
      {st : SysState} (h : Reachable st) : Reachable (processorTick now r outcome st)

/-- The base64 alphabet in index order. -/
def b64Chars : List Char :=
  ['A', 'B', 'C', 'D', 'E', 'F', 'G', 'H', 'I', 'J', 'K', 'L', 'M',
   'N', 'O', 'P', 'Q', 'R', 'S', 'T', 'U', 'V', 'W', 'X', 'Y', 'Z',
   'a', 'b', 'c', 'd', 'e', 'f', 'g', 'h', 'i', 'j', 'k', 'l', 'm',
   'n', 'o', 'p', 'q', 'r', 's', 't', 'u', 'v', 'w', 'x', 'y', 'z',
   '0', '1', '2', '3', '4', '5', '6', '7', '8', '9', '+', '/']

/-- Character for a sextet value. -/
def sextetChar (n : Nat) : Char := b64Chars.getD n 'A'

/-- Sextet value of a base64 character, none for characters outside the
alphabet. -/
def charSextet? (c : Char) : Option Nat := b64Chars.indexOf? c

/-- Standard base64 encoding of a byte list (Buffer.prototype.toString
with base64), three bytes to four characters with '=' padding. -/
def b64EncodeChunks : List Nat → List Char
  | b0 :: b1 :: b2 :: rest =>
    sextetChar (b0 / 4) :: sextetChar ((b0 % 4) * 16 + b1 / 16) ::
    sextetChar ((b1 % 16) * 4 + b2 / 64) :: sextetChar (b2 % 64) ::
    b64EncodeChunks rest
  | [b0, b1] =>
    [sextetChar (b0 / 4), sextetChar ((b0 % 4) * 16 + b1 / 16),
     sextetChar ((b1 % 16) * 4), '=']
  | [b0] =>
    [sextetChar (b0 / 4), sextetChar ((b0 % 4) * 16), '=', '=']
  | [] => []

/-- Standard base64 decoding back to bytes (Buffer.from with base64),
none on a malformed string: a quartet ending in one '=' yields two bytes,
in two '=' one byte, and padding may only end the input. -/
def b64DecodeChunks : List Char → Option (List Nat)
  | [] => some []
  | c0 :: c1 :: c2 :: c3 :: rest =>
    if c2 = '=' then
      if c3 = '=' ∧ rest = [] then do
        let s0 ← charSextet? c0
        let s1 ← charSextet? c1
        some [s0 * 4 + s1 / 16]
      else none
    else if c3 = '=' then
      if rest = [] then do
        let s0 ← charSextet? c0
        let s1 ← charSextet? c1
        let s2 ← charSextet? c2
        some [s0 * 4 + s1 / 16, (s1 % 16) * 16 + s2 / 4]
      else none
    else do
      let s0 ← charSextet? c0
      let s1 ← charSextet? c1
      let s2 ← charSextet? c2
      let s3 ← charSextet? c3
      let tail ← b64DecodeChunks rest
      some ((s0 * 4 + s1 / 16) :: ((s1 % 16) * 16 + s2 / 4) :: ((s2 % 4) * 64 + s3) :: tail)
  | _ => none

/-- Base64 encoding of bytes to a string. -/
def b64Encode (bs : List Nat) : String := String.mk (b64EncodeChunks bs)

/-- Base64 decoding of a string to bytes. -/
def b64Decode (s : String) : Option (List Nat) := b64DecodeChunks s.toList

/-- An authenticated cipher at the granularity tee.js uses it:
enc key iv plaintext = (ciphertext, authTag) models createCipheriv with
aes-256-gcm followed by update/final and getAuthTag; dec models
createDecipheriv with setAuthTag (none = authentication failure).  The
AES-256-GCM facts the round-trip claim needs (decryption inverts
encryption; ciphertext length equals plaintext length; the tag is 16
bytes) enter the theorems as hypotheses on this structure. -/
structure Aead where
  enc : List Nat → List Nat → List Nat → List Nat × List Nat
  dec : List Nat → List Nat → List Nat → List Nat → Option (List Nat)

/-- encryptForUser from tee.js: concatenate
ephemeralKey(32) then iv(12) then authTag(16) then ciphertext and
base64-encode the blob.  The sampled ephemeralKey and iv are oracle
arguments (randomBytes(32), randomBytes(12)). -/
def encryptForUser (aead : Aead) (ephemeralKey iv plaintext : List Nat) : String :=
  let ct := aead.enc ephemeralKey iv plaintext
  b64Encode (ephemeralKey ++ iv ++ ct.2 ++ ct.1)

/-- generatePrivateKeyInsideTEE from tee.js, with the CSPRNG outputs as
oracle arguments: privateKeyBytes are the randomBytes(32) behind the hex
private-key string, ethAddr models ethers.Wallet address derivation from
those bytes, and the encrypted blob wraps exactly the raw key bytes
(Buffer.from of the hex string without its 0x prefix). -/
def generatePrivateKeyInsideTEE (aead : Aead) (ethAddr : List Nat → String)
    (privateKeyBytes ephemeralKey iv : List Nat)
    (keyRef attestationReport : String) : TeeOutput :=
  { encryptedKeyForUser := encryptForUser aead ephemeralKey iv privateKeyBytes
    attestationReport := attestationReport
    newAddress := ethAddr privateKeyBytes
    keyRef := keyRef }

/-- The repository's own decoder for the wrapped-key blob (the end-to-end
script): base64-decode, refuse blobs shorter than 61 bytes, slice
ephemeralKey = bytes 0-32, iv = 32-44, authTag = 44-60, ciphertext = the
rest, then AES-256-GCM decrypt. -/
def decodeEncryptedPrivateKey (aead : Aead) (blob : String) : Option (List Nat) :=
  match b64Decode blob with
  | none => none
  | some buf =>
    if buf.length < 32 + 12 + 16 + 1 then none
    else
      let ephemeralKey := buf.take 32
      let iv := (buf.drop 32).take 12
      let authTag := (buf.drop 44).take 16
      let ciphertext := buf.drop 60
      aead.dec ephemeralKey iv ciphertext authTag

/-- Phases of one interval callback of the batch processor, split at its
await points: idle (not yet fired), picked (ran the synchronous segment
that snapshots the queue and the due-job checks, about to call
sendFundsToNewAddress), submitted (the withdrawal transaction has been
sent, awaiting its receipt), finished. -/
inductive TickPhase where
  | idle
  | picked
  | submitted
  | finished
deriving DecidableEq

/-- Shared state for two interval callbacks racing over one due pending
job J: the memdb job status (pending?), J's presence in the Redis list,
the number of times sendFundsToNewAddress has been invoked for J, and the
two callbacks' phases.  The tick body in queue.js consults only the job
fields — it holds no in-flight flag — so a callback's guards never
mention the other callback's phase. -/
structure ConcState where
  jobPending : Bool
  jobInQueue : Bool
  submissions : Nat
  t1 : TickPhase
  t2 : TickPhase
deriving DecidableEq

/-- Interleaving actions: pick i fires callback i and runs its
synchronous prefix (eligible only while the job reads as pending, due and
queued); submit i invokes sendFundsToNewAddress; settle i receives the
success receipt, marks the job completed and removes it from the queue
and the table; skip i fires callback i when the job no longer reads as
due, so its dueJobs list is empty and it returns. -/
inductive ConcAct where
  | pick1
  | pick2
  | submit1
  | submit2
  | settle1
  | settle2
  | skip1
  | skip2
deriving DecidableEq

/-- One interleaving step; none when the action's guard fails. -/
def concStep (s : ConcState) : ConcAct → Option ConcState
  | .pick1 =>
    if s.t1 = .idle && s.jobPending && s.jobInQueue then
      some { s with t1 := .picked } else none
  | .pick2 =>
    if s.t2 = .idle && s.jobPending && s.jobInQueue then
      some { s with t2 := .picked } else none
  | .submit1 =>
    if s.t1 = .picked then
      some { s with submissions := s.submissions + 1, t1 := .submitted } else none
  | .submit2 =>
    if s.t2 = .picked then
      some { s with submissions := s.submissions + 1, t2 := .submitted } else none
  | .settle1 =>
    if s.t1 = .submitted then
      some { s with jobPending := false, jobInQueue := false, t1 := .finished } else none
  | .settle2 =>
    if s.t2 = .submitted then
      some { s with jobPending := false, jobInQueue := false, t2 := .finished } else none
  | .skip1 =>
    if s.t1 = .idle && !(s.jobPending && s.jobInQueue) then
      some { s with t1 := .finished } else none
  | .skip2 =>
    if s.t2 = .idle && !(s.jobPending && s.jobInQueue) then
      some { s with t2 := .finished } else none

/-- Run a schedule of interleaving actions; none if any guard fails. -/
def runSchedule (s : ConcState) : List ConcAct → Option ConcState
  | [] => some s
  | a :: rest =>
    match concStep s a with
    | none => none
    | some s2 => runSchedule s2 rest

/-- The start guard of batchProcessor() in queue.js: given the current
batchIntervalStarted flag, returns whether this call starts the interval
and the flag afterwards.  This is the only guard the function has. -/
def batchProcessorStart (batchIntervalStarted : Bool) : Bool × Bool :=
  if batchIntervalStarted then (false, batchIntervalStarted) else (true, true)

/-- The four statuses the server actually assigns to sessions: creation
writes awaiting_deposit, the matcher deposit_detected, the engine
withdrawal_queued, the batch processor completed. -/
def activeStatuses : List SessionStatus :=
  [SessionStatus.awaiting_deposit, SessionStatus.deposit_detected,
   SessionStatus.withdrawal_queued, SessionStatus.completed]

/-- Net effect of the matcher plus engine on a matched session that
reached withdrawal_queued: first deposit_detected with the deposit
transaction hash and matchIso, then withdrawal_queued with queuedIso. -/
def advancedSession (c : EnqueueCtx) (txHash : String) (s : Session) : Session :=
  { s with status := SessionStatus.withdrawal_queued,
           depositTxHash := some txHash,
           updatedAt := c.queuedIso }

/-- Store-level invariant maintained by every entry point: sessions only
ever hold the four assigned statuses, always carry a generated address,
and never carry a depositId; jobs never carry a depositId either. -/
def StoreInv (st : SysState) : Prop :=
  (∀ s ∈ st.sessions,
      s.status ∈ activeStatuses ∧ s.newAddress.isSome = true ∧ s.depositId = none) ∧
  (∀ j ∈ st.pendingWithdrawals, j.depositId = none)

/-- Concrete enclave output used in closed instances. -/
def cexTee : TeeOutput :=
  { encryptedKeyForUser := "encblob", attestationReport := "att",
    newAddress := "0xNEW1", keyRef := "kr1" }

/-- Concrete session-store entry used in closed instances: a session the
route would create for signer 0xaaa expecting 2000000 units. -/
def cexSession : Session :=
  { id := "i1", sessionToken := "t1", userAddress := "0xaaa",
    expectedAmount := "2000000", status := SessionStatus.awaiting_deposit,
    newAddress := some "0xNEW1", encryptedKeyForUser := some "encblob",
    attestationReport := some "att", depositTxHash := none, depositId := none,
    withdrawTxHash := none, createdAt := "t0", updatedAt := "t0" }

/-- Concrete Deposited event carrying depositId 7 that matches
cexSession exactly. -/
def cexEvent : DepositEvent :=
  { from_ := "0xAAA", amount := 2000000, depositId := 7, txHash := "0xdep" }

/-- Concrete oracle values for one enqueueWithdrawal call. -/
def cexCtx : EnqueueCtx :=
  { ppm := 0, delaySec := 5, nowMs := 1000, jobId := "job1",
    matchIso := "t1iso", queuedIso := "t2iso" }

/-- State after matching cexEvent against a store holding cexSession. -/
def c1State : SysState :=
  handleDepositedEvent cexEvent (fun _ => cexCtx) ⟨[cexSession], [], []⟩

/-- State after POSTing request-wallet with depositAmount "0" (a truthy
string, so the route accepts it) and then delivering a Deposited event of
amount 0 from the same signer. -/
def c6State : SysState :=
  handleDepositedEvent { from_ := "0xAAAA", amount := 0, depositId := 1, txHash := "0xdep" }
    (fun _ => cexCtx)
    (requestWalletHandler (fun _ _ => some "0xAAAA") cexTee "tok" "sid" "t0"
      { message := some "m", signature := some "sig", depositAmount := some "0",
        expectedAmount := none } ⟨[], [], []⟩).2

/-- Concrete pending job matching cexSession, due at time 500. -/
def cexJob : WithdrawalJob :=
  { id := "job1", sessionToken := "t1", newAddress := "0xNEW1",
    normalizedAmount := 2000000, depositId := none, executeAfter := 500,
    status := JobStatus.pending }

/-- Store holding one queued session and its one due pending job. -/
def c7Start : SysState :=
  ⟨[{ cexSession with status := SessionStatus.withdrawal_queued }], [cexJob], ["job1"]⟩

/-- An authenticated cipher satisfying the AES-256-GCM facts the blob
round-trip needs (decryption inverts encryption, ciphertext as long as
the plaintext, 16-byte tag), used to instantiate closed instances. -/
def cexAead : Aead :=
  { enc := fun _ _ pt => (pt, List.replicate 16 0)
    dec := fun _ _ ctt _ => some ctt }

/-- Pointwise behaviour of one Deposited delivery on one stored session:
a non-matching session is untouched, a matching one ends as
advancedSession for the oracle values consumed on its match. -/
def MatchedRel (f : String) (a : Int) (tx : String) (s s2 : Session) : Prop :=
  (depositMatches f a s = false → s2 = s) ∧
  (depositMatches f a s = true → ∃ c : EnqueueCtx, s2 = advancedSession c tx s)

/-! ### Helper lemmas -/

theorem depositMatches_parse {f : String} {a : Int} {s : Session}
    (h : depositMatches f a s = true) :
    ∃ E : Int, parseBigInt? s.expectedAmount = some E := by
  unfold depositMatches at h
  rcases hp : parseBigInt? s.expectedAmount with _ | E
  · rw [hp] at h; simp at h
  · exact ⟨E, rfl⟩

theorem depositMatches_advanced (f : String) (a : Int) (c : EnqueueCtx)
    (tx : String) (s : Session) :
    depositMatches f a (advancedSession c tx s) = false := by
  unfold depositMatches advancedSession
  simp

theorem enqueueWithdrawal_ok (ctx : EnqueueCtx) (s : Session)
    (jobs : List WithdrawalJob) (q : List String) (addr : String) (E : Int)
    (hna : s.newAddress = some addr) (hE : parseBigInt? s.expectedAmount = some E) :
    enqueueWithdrawal ctx s jobs q =
      .ok ({ s with status := SessionStatus.withdrawal_queued, updatedAt := ctx.queuedIso },
           jobs ++ [{ id := ctx.jobId, sessionToken := s.sessionToken, newAddress := addr,
                      normalizedAmount := E + bigDiv (E * ctx.ppm) 1000000,
                      depositId := s.depositId,
                      executeAfter := ctx.nowMs + ctx.delaySec * 1000,
                      status := JobStatus.pending }],
           q ++ [ctx.jobId]) := by
  unfold enqueueWithdrawal
  rw [hna, hE]

theorem bigDiv_mul_le_of_nonneg {x : Int} (h : 0 ≤ x) :
    0 ≤ 1000000 * bigDiv x 1000000 ∧ 1000000 * bigDiv x 1000000 ≤ x := by
  have he : bigDiv x 1000000 = x / 1000000 := Int.tdiv_eq_ediv h (by norm_num)
  have hm := Int.ediv_add_emod x 1000000
  have h0 : 0 ≤ x % 1000000 := Int.emod_nonneg x (by norm_num)
  have hd : 0 ≤ x / 1000000 := Int.ediv_nonneg h (by norm_num)
  constructor
  · rw [he]; positivity
  · rw [he]; omega

theorem bigDiv_mul_ge_of_nonpos {x : Int} (h : x ≤ 0) :
    x ≤ 1000000 * bigDiv x 1000000 ∧ 1000000 * bigDiv x 1000000 ≤ 0 := by
  have hx : 0 ≤ -x := by omega
  have hneg : bigDiv x 1000000 = -(bigDiv (-x) 1000000) := by
    unfold bigDiv
    rw [show x = -(-x) by ring, Int.neg_tdiv]
    simp
  have hb := bigDiv_mul_le_of_nonneg hx
  constructor
  · rw [hneg]; omega
  · rw [hneg]; omega

theorem normalized_lower (E ppm : Int) (hE : 0 ≤ E) (h1 : -30 ≤ ppm) :
    1000000 * E - 30 * E ≤ 1000000 * (E + bigDiv (E * ppm) 1000000) := by
  rcases le_or_lt 0 ppm with hp | hp
  · have hx : 0 ≤ E * ppm := mul_nonneg hE hp
    have := (bigDiv_mul_le_of_nonneg hx).1
    nlinarith
  · have hx : E * ppm ≤ 0 := mul_nonpos_of_nonneg_of_nonpos hE (le_of_lt hp)
    have hb := (bigDiv_mul_ge_of_nonpos hx).1
    have hm : E * (-30) ≤ E * ppm := mul_le_mul_of_nonneg_left h1 hE
    nlinarith

theorem normalized_upper (E ppm : Int) (hE : 0 ≤ E) (h2 : ppm ≤ 40) :
    1000000 * (E + bigDiv (E * ppm) 1000000) ≤ 1000000 * E + 40 * E := by
  rcases le_or_lt 0 ppm with hp | hp
  · have hx : 0 ≤ E * ppm := mul_nonneg hE hp
    have hb := (bigDiv_mul_le_of_nonneg hx).2
    have hm : E * ppm ≤ E * 40 := mul_le_mul_of_nonneg_left h2 hE
    nlinarith
  · have hx : E * ppm ≤ 0 := mul_nonpos_of_nonneg_of_nonpos hE (le_of_lt hp)
    have hb := (bigDiv_mul_ge_of_nonpos hx).2
    nlinarith

theorem normalized_pos (E ppm : Int) (hE : 1 ≤ E) (h1 : -30 ≤ ppm) :
    1 ≤ E + bigDiv (E * ppm) 1000000 := by
  rcases le_or_lt 0 ppm with hp | hp
  · have hx : 0 ≤ E * ppm := mul_nonneg (by omega) hp
    have hd : 0 ≤ bigDiv (E * ppm) 1000000 :=
      Int.tdiv_nonneg hx (by norm_num)
    omega
  · have hx : E * ppm ≤ 0 := mul_nonpos_of_nonneg_of_nonpos (by omega) (le_of_lt hp)
    have hb := (bigDiv_mul_ge_of_nonpos hx).1
    have hm : E * (-30) ≤ E * ppm := mul_le_mul_of_nonneg_left h1 (by omega)
    nlinarith

theorem normalized_one (ppm : Int) (h1 : -30 ≤ ppm) (h2 : ppm ≤ 40) :
    1 + bigDiv (1 * ppm) 1000000 = 1 := by
  rcases le_or_lt 0 ppm with hp | hp
  · have : bigDiv (1 * ppm) 1000000 = 0 := by
      unfold bigDiv
      rw [one_mul]
      exact Int.tdiv_eq_zero_of_lt hp (by omega)
    omega
  · have hz : bigDiv (1 * (-ppm)) 1000000 = 0 := by
      unfold bigDiv
      rw [one_mul]
      exact Int.tdiv_eq_zero_of_lt (by omega) (by omega)
    have : bigDiv (1 * ppm) 1000000 = -(bigDiv (1 * (-ppm)) 1000000) := by
      unfold bigDiv
      rw [one_mul, one_mul, show ppm = -(-ppm) by ring, Int.neg_tdiv]
      simp
    omega

theorem matchLoop_noMatch (f : String) (a : Int) (tx : String)
    (ctx : Nat → EnqueueCtx) (ss : List Session) :
    ∀ (k : Nat) (jobs : List WithdrawalJob) (q : List String),
      (∀ s ∈ ss, depositMatches f a s = false) →
      matchLoop f a tx ctx ss k jobs q = ⟨ss, jobs, q, true⟩ := by
  induction ss with
  | nil => intro k jobs q _; simp [matchLoop]
  | cons s rest ih =>
    intro k jobs q h
    have hs : depositMatches f a s = false := h s (by simp)
    have hr := ih k jobs q (fun s2 hs2 => h s2 (by simp [hs2]))
    simp [matchLoop, hs, hr]

theorem matchLoop_spec (f : String) (a : Int) (tx : String)
    (ctx : Nat → EnqueueCtx) (ss : List Session) :
    ∀ (k : Nat) (jobs : List WithdrawalJob) (q : List String),
      (∀ s ∈ ss, s.newAddress.isSome = true) →
      (matchLoop f a tx ctx ss k jobs q).ok = true ∧
      List.Forall₂ (MatchedRel f a tx) ss (matchLoop f a tx ctx ss k jobs q).sessions := by
  induction ss with
  | nil => intro k jobs q _; exact ⟨rfl, List.Forall₂.nil⟩
  | cons s rest ih =>
    intro k jobs q hna
    have hnar : ∀ s2 ∈ rest, s2.newAddress.isSome = true :=
      fun s2 hs2 => hna s2 (by simp [hs2])
    by_cases hm : depositMatches f a s = true
    · obtain ⟨E, hE⟩ := depositMatches_parse hm
      obtain ⟨addr, hna1⟩ := Option.isSome_iff_exists.mp (hna s (by simp))
      have hEq := enqueueWithdrawal_ok (ctx k)
        { s with status := SessionStatus.deposit_detected,
                 depositTxHash := some tx, updatedAt := (ctx k).matchIso }
        jobs q addr E hna1 hE
      have hrec := ih (k + 1)
        (jobs ++ [{ id := (ctx k).jobId, sessionToken := s.sessionToken, newAddress := addr,
                    normalizedAmount := E + bigDiv (E * (ctx k).ppm) 1000000,
                    depositId := s.depositId,
                    executeAfter := (ctx k).nowMs + (ctx k).delaySec * 1000,
                    status := JobStatus.pending }])
        (q ++ [(ctx k).jobId]) hnar
      refine ⟨?_, ?_⟩
      · simp only [matchLoop, hm, if_true, hEq]
        exact hrec.1
      · simp only [matchLoop, hm, if_true, hEq]
        refine List.Forall₂.cons ⟨fun hc => absurd hm (by simp [hc]), fun _ => ⟨ctx k, rfl⟩⟩ hrec.2
    · have hmf : depositMatches f a s = false := by
        cases hdm : depositMatches f a s with
        | false => rfl
        | true => exact absurd hdm hm
      have hrec := ih k jobs q hnar
      refine ⟨?_, ?_⟩
      · simp only [matchLoop, hmf, Bool.false_eq_true, if_false]
        exact hrec.1
      · simp only [matchLoop, hmf, Bool.false_eq_true, if_false]
        exact List.Forall₂.cons ⟨fun _ => rfl, fun hc => absurd hc hm⟩ hrec.2

theorem forall₂_mem_right {α β : Type} {R : α → β → Prop} :
    ∀ {l1 : List α} {l2 : List β}, List.Forall₂ R l1 l2 →
      ∀ b ∈ l2, ∃ a ∈ l1, R a b := by
  intro l1 l2 h
  induction h with
  | nil => intro b hb; cases hb
  | cons hr _ ih =>
    intro b hb
    rcases List.mem_cons.mp hb with hb | hb
    · exact ⟨_, by simp, hb ▸ hr⟩
    · obtain ⟨a, ha, har⟩ := ih b hb
      exact ⟨a, by simp [ha], har⟩

theorem matchLoop_post_noMatch (f : String) (a : Int) (tx : String)
    (ctx : Nat → EnqueueCtx) (ss : List Session)
    (k : Nat) (jobs : List WithdrawalJob) (q : List String)
    (hna : ∀ s ∈ ss, s.newAddress.isSome = true) :
    ∀ s2 ∈ (matchLoop f a tx ctx ss k jobs q).sessions, depositMatches f a s2 = false := by
  have hspec := (matchLoop_spec f a tx ctx ss k jobs q hna).2
  intro s2 hs2
  obtain ⟨s, _, hrel⟩ := forall₂_mem_right hspec s2 hs2
  by_cases hm : depositMatches f a s = true
  · obtain ⟨c, hc⟩ := hrel.2 hm
    rw [hc]
    exact depositMatches_advanced f a c tx s
  · have hmf : depositMatches f a s = false := by
      cases hdm : depositMatches f a s with
      | false => rfl
      | true => exact absurd hdm hm
    rw [hrel.1 hmf]
    exact hmf

theorem matchLoop_inv (f : String) (a : Int) (tx : String)
    (ctx : Nat → EnqueueCtx) (ss : List Session) :
    ∀ (k : Nat) (jobs : List WithdrawalJob) (q : List String),
      (∀ s2 ∈ (matchLoop f a tx ctx ss k jobs q).sessions,
        ∃ s ∈ ss, s2.newAddress = s.newAddress ∧ s2.depositId = s.depositId ∧
          (s2.status = s.status ∨ s2.status = SessionStatus.deposit_detected ∨
           s2.status = SessionStatus.withdrawal_queued)) ∧
      (∀ j ∈ (matchLoop f a tx ctx ss k jobs q).jobs,
        j ∈ jobs ∨ ∃ s ∈ ss, j.depositId = s.depositId) := by
  induction ss with
  | nil =>
    intro k jobs q
    constructor
    · intro s2 hs2; simp [matchLoop] at hs2
    · intro j hj; simp [matchLoop] at hj; exact Or.inl hj
  | cons s rest ih =>
    intro k jobs q
    by_cases hm : depositMatches f a s = true
    · rcases henq : enqueueWithdrawal (ctx k)
        { s with status := SessionStatus.deposit_detected,
                 depositTxHash := some tx, updatedAt := (ctx k).matchIso } jobs q
        with msg | res
      · constructor
        · intro s2 hs2
          simp only [matchLoop, hm, if_true, henq] at hs2
          rcases List.mem_cons.mp hs2 with hh | hh
          · exact ⟨s, by simp, by rw [hh], by rw [hh], by rw [hh]; right; left; rfl⟩
          · exact ⟨s2, by simp [hh], rfl, rfl, Or.inl rfl⟩
        · intro j hj
          simp only [matchLoop, hm, if_true, henq] at hj
          exact Or.inl hj
      · obtain ⟨E, hE⟩ := depositMatches_parse hm
        rcases hna : s.newAddress with _ | addr
        · unfold enqueueWithdrawal at henq
          simp only [hna] at henq
          cases henq
        · have hok := enqueueWithdrawal_ok (ctx k)
            { s with status := SessionStatus.deposit_detected,
                     depositTxHash := some tx, updatedAt := (ctx k).matchIso }
            jobs q addr E hna hE
          rw [hok] at henq
          cases henq
          have hrec := ih (k + 1)
            (jobs ++ [{ id := (ctx k).jobId, sessionToken := s.sessionToken, newAddress := addr,
                        normalizedAmount := E + bigDiv (E * (ctx k).ppm) 1000000,
                        depositId := s.depositId,
                        executeAfter := (ctx k).nowMs + (ctx k).delaySec * 1000,
                        status := JobStatus.pending }])
            (q ++ [(ctx k).jobId])
          constructor
          · intro s2 hs2
            simp only [matchLoop, hm, if_true, hok] at hs2
            rcases List.mem_cons.mp hs2 with hh | hh
            · exact ⟨s, by simp, by rw [hh], by rw [hh], by rw [hh]; right; right; rfl⟩
            · obtain ⟨s0, hs0, hrest⟩ := hrec.1 s2 hh
              exact ⟨s0, by simp [hs0], hrest⟩
          · intro j hj
            simp only [matchLoop, hm, if_true, hok] at hj
            rcases hrec.2 j hj with hj2 | hj2
            · rcases List.mem_append.mp hj2 with hj3 | hj3
              · exact Or.inl hj3
              · refine Or.inr ⟨s, by simp, ?_⟩
                have : j = { id := (ctx k).jobId, sessionToken := s.sessionToken,
                             newAddress := addr,
                             normalizedAmount := E + bigDiv (E * (ctx k).ppm) 1000000,
                             depositId := s.depositId,
                             executeAfter := (ctx k).nowMs + (ctx k).delaySec * 1000,
                             status := JobStatus.pending } := by simpa using hj3
                rw [this]
            · obtain ⟨s0, hs0, hd⟩ := hj2
              exact Or.inr ⟨s0, by simp [hs0], hd⟩
    · have hmf : depositMatches f a s = false := by
        cases hdm : depositMatches f a s with
        | false => rfl
        | true => exact absurd hdm hm
      have hrec := ih k jobs q
      constructor
      · intro s2 hs2
        simp only [matchLoop, hmf, Bool.false_eq_true, if_false] at hs2
        rcases List.mem_cons.mp hs2 with hh | hh
        · exact ⟨s, by simp, by rw [hh], by rw [hh], by rw [hh]; left; rfl⟩
        · obtain ⟨s0, hs0, hrest⟩ := hrec.1 s2 hh
          exact ⟨s0, by simp [hs0], hrest⟩
      · intro j hj
        simp only [matchLoop, hmf, Bool.false_eq_true, if_false] at hj
        rcases hrec.2 j hj with hj2 | hj2
        · exact Or.inl hj2
        · obtain ⟨s0, hs0, hd⟩ := hj2
          exact Or.inr ⟨s0, by simp [hs0], hd⟩

theorem processJob_inv (outcome : String → SubmitOutcome) (st : SysState)
    (job : WithdrawalJob) (h : StoreInv st) : StoreInv (processJob outcome st job) := by
  obtain ⟨hs, hj⟩ := h
  unfold processJob
  cases outcome job.id with
  | success txHash isoNow =>
    constructor
    · intro s2 hs2
      simp only [List.mem_map] at hs2
      obtain ⟨s, hsm, hse⟩ := hs2
      obtain ⟨h1, h2, h3⟩ := hs s hsm
      by_cases ht : s.sessionToken = job.sessionToken
      · simp only [ht, if_true] at hse
        rw [← hse]
        exact ⟨by simp [activeStatuses], h2, h3⟩
      · simp only [ht, if_false] at hse
        rw [← hse]
        exact ⟨h1, h2, h3⟩
    · intro j hjm
      exact hj j (List.mem_of_mem_filter hjm)
  | failure failNowMs delaySec =>
    constructor
    · exact hs
    · intro j hjm
      simp only [List.mem_map] at hjm
      obtain ⟨j0, hj0, hje⟩ := hjm
      have := hj j0 hj0
      by_cases hid : j0.id = job.id
      · simp only [hid, if_true] at hje
        rw [← hje]
        exact this
      · simp only [hid, if_false] at hje
        rw [← hje]
        exact this

theorem foldl_processJob_inv (outcome : String → SubmitOutcome) :
    ∀ (l : List WithdrawalJob) (st : SysState),
      StoreInv st → StoreInv (l.foldl (processJob outcome) st) := by
  intro l
  induction l with
  | nil => intro st h; exact h
  | cons j rest ih =>
    intro st h
    exact ih (processJob outcome st j) (processJob_inv outcome st j h)

theorem processorTick_inv (now : Int) (r : Nat → Nat)
    (outcome : String → SubmitOutcome) (st : SysState) (h : StoreInv st) :
    StoreInv (processorTick now r outcome st) :=
  foldl_processJob_inv outcome _ st h

theorem requestWallet_inv (recover : String → String → Option String)
    (tee : TeeOutput) (sessionToken sessionId nowIso : String)
    (body : RequestBody) (st : SysState) (h : StoreInv st) :
    StoreInv (requestWalletHandler recover tee sessionToken sessionId nowIso body st).2 := by
  obtain ⟨hs, hj⟩ := h
  unfold requestWalletHandler
  by_cases hb : (truthy body.message && truthy body.signature && truthy body.depositAmount) = true
  · simp only [hb, Bool.not_true, Bool.false_eq_true, if_false]
    cases recover (body.message.getD "") (body.signature.getD "") with
    | none => exact ⟨hs, hj⟩
    | some userAddress =>
      constructor
      · intro s2 hs2
        rcases List.mem_append.mp hs2 with hh | hh
        · exact hs s2 hh
        · have hs2e : s2 =
              { id := sessionId, sessionToken := sessionToken,
                userAddress := toLowerCase userAddress,
                expectedAmount := body.depositAmount.getD "",
                status := SessionStatus.awaiting_deposit,
                newAddress := some tee.newAddress,
                encryptedKeyForUser := some tee.encryptedKeyForUser,
                attestationReport := some tee.attestationReport,
                depositTxHash := none, depositId := none, withdrawTxHash := none,
                createdAt := nowIso, updatedAt := nowIso } := by simpa using hh
          rw [hs2e]
          exact ⟨by simp [activeStatuses], rfl, rfl⟩
      · exact hj
  · have hb2 : (truthy body.message && truthy body.signature && truthy body.depositAmount) = false := by
      cases hx : (truthy body.message && truthy body.signature && truthy body.depositAmount) with
      | false => rfl
      | true => exact absurd hx hb
    simp only [hb2, Bool.not_false, if_true]
    exact ⟨hs, hj⟩

theorem handleDeposited_inv (ev : DepositEvent) (ctx : Nat → EnqueueCtx)
    (st : SysState) (h : StoreInv st) : StoreInv (handleDepositedEvent ev ctx st) := by
  obtain ⟨hs, hj⟩ := h
  unfold handleDepositedEvent
  have hml := matchLoop_inv (toLowerCase ev.from_) ev.amount ev.txHash ctx st.sessions 0
    st.pendingWithdrawals st.queue
  constructor
  · intro s2 hs2
    obtain ⟨s, hsm, h1, h2, h3⟩ := hml.1 s2 hs2
    obtain ⟨g1, g2, g3⟩ := hs s hsm
    refine ⟨?_, by rw [h1]; exact g2, by rw [h2]; exact g3⟩
    rcases h3 with h3 | h3 | h3
    · rw [h3]; exact g1
    · rw [h3]; simp [activeStatuses]
    · rw [h3]; simp [activeStatuses]
  · intro j hjm
    rcases hml.2 j hjm with hh | hh
    · exact hj j hh
    · obtain ⟨s, hsm, hd⟩ := hh
      rw [hd]
      exact (hs s hsm).2.2

theorem reachable_storeInv (st : SysState) (h : Reachable st) : StoreInv st := by
  induction h with
  | init => exact ⟨fun s hs => (by cases hs), fun j hj => (by cases hj)⟩
  | request recover tee sessionToken sessionId nowIso body _ ih =>
    exact requestWallet_inv recover tee sessionToken sessionId nowIso body _ ih
  | deposited ev ctx _ ih => exact handleDeposited_inv ev ctx _ ih
  | tick now r outcome _ ih => exact processorTick_inv now r outcome _ ih

theorem tolerance_eq (E : Int) (h0 : 0 ≤ E) :
    (if bigDiv E 10000 = 0 then 1 else bigDiv E 10000) = max 1 (bigDiv E 10000) := by
  have hd : 0 ≤ bigDiv E 10000 := Int.tdiv_nonneg h0 (by norm_num)
  by_cases h : bigDiv E 10000 = 0
  · rw [if_pos h, h]; simp
  · rw [if_neg h]
    exact (max_eq_right (by omega)).symm

theorem depositMatches_iff (f : String) (a : Int) (s : Session) (E : Int)
    (hE : parseBigInt? s.expectedAmount = some E) (h0 : 0 ≤ E) :
    depositMatches f a s = true ↔
      (s.userAddress = f ∧ s.status = SessionStatus.awaiting_deposit ∧
       |a - E| ≤ max 1 (bigDiv E 10000)) := by
  have habs : (if E > a then E - a else a - E) = |a - E| := by
    rcases le_or_lt E a with h | h
    · rw [if_neg (by omega), abs_of_nonneg (by omega)]
    · rw [if_pos (by omega), abs_of_neg (by omega)]
      ring
  unfold depositMatches
  rw [hE]
  simp only [Bool.and_eq_true, decide_eq_true_eq]
  rw [habs, tolerance_eq E h0, and_assoc]

theorem handleDeposited_forall₂ (ev : DepositEvent) (ctx : Nat → EnqueueCtx)
    (st : SysState) (hna : ∀ s ∈ st.sessions, s.newAddress.isSome = true) :
    List.Forall₂ (MatchedRel (toLowerCase ev.from_) ev.amount ev.txHash)
      st.sessions (handleDepositedEvent ev ctx st).sessions :=
  (matchLoop_spec (toLowerCase ev.from_) ev.amount ev.txHash ctx st.sessions 0
    st.pendingWithdrawals st.queue hna).2

theorem handleDeposited_noMatch (ev : DepositEvent) (ctx : Nat → EnqueueCtx)
    (st : SysState)
    (h : ∀ s ∈ st.sessions, depositMatches (toLowerCase ev.from_) ev.amount s = false) :
    handleDepositedEvent ev ctx st = st := by
  unfold handleDepositedEvent
  simp only []
  rw [matchLoop_noMatch (toLowerCase ev.from_) ev.amount ev.txHash ctx st.sessions 0
    st.pendingWithdrawals st.queue h]

theorem handleDeposited_replay (ev : DepositEvent) (ctx ctx2 : Nat → EnqueueCtx)
    (st : SysState) (hna : ∀ s ∈ st.sessions, s.newAddress.isSome = true) :
    handleDepositedEvent ev ctx2 (handleDepositedEvent ev ctx st) =
      handleDepositedEvent ev ctx st := by
  apply handleDeposited_noMatch
  intro s2 hs2
  exact matchLoop_post_noMatch (toLowerCase ev.from_) ev.amount ev.txHash ctx st.sessions 0
    st.pendingWithdrawals st.queue hna s2 hs2

theorem fisherYates_singleton {α : Type} (r : Nat → Nat) (x : α) :
    fisherYates r [x] = [x] := rfl

theorem dueFilter_singleton (table : List WithdrawalJob) (jid : String)
    (now : Int) (j : WithdrawalJob)
    (hfind : table.find? (fun t => t.id = jid) = some j)
    (hp : j.status = JobStatus.pending) (hdue : j.executeAfter ≤ now) :
    dueFilter table [jid] now = [j] := by
  unfold dueFilter
  simp [List.filterMap, hfind, hp, hdue]

theorem charSextet_sextetChar : ∀ n, n < 64 → charSextet? (sextetChar n) = some n := by
  decide

theorem sextetChar_ne_pad (n : Nat) : sextetChar n ≠ '=' := by
  by_cases h : n < 64
  · exact (show ∀ m, m < 64 → sextetChar m ≠ '=' by decide) n h
  · unfold sextetChar
    rw [List.getD_eq_getElem?_getD, List.getElem?_eq_none (by simp [b64Chars]; omega)]
    decide

theorem b64_roundtrip : ∀ (bs : List Nat), (∀ b ∈ bs, b < 256) →
    b64DecodeChunks (b64EncodeChunks bs) = some bs
  | [], _ => rfl
  | [b0], h => by
    have h0 : b0 < 256 := h b0 (by simp)
    have e0 := charSextet_sextetChar (b0 / 4) (by omega)
    have e1 := charSextet_sextetChar ((b0 % 4) * 16) (by omega)
    simp [b64EncodeChunks, b64DecodeChunks, e0, e1]
    omega
  | [b0, b1], h => by
    have h0 : b0 < 256 := h b0 (by simp)
    have h1 : b1 < 256 := h b1 (by simp)
    have e0 := charSextet_sextetChar (b0 / 4) (by omega)
    have e1 := charSextet_sextetChar ((b0 % 4) * 16 + b1 / 16) (by omega)
    have e2 := charSextet_sextetChar ((b1 % 16) * 4) (by omega)
    simp [b64EncodeChunks, b64DecodeChunks, sextetChar_ne_pad ((b1 % 16) * 4), e0, e1, e2]
    omega
  | b0 :: b1 :: b2 :: rest, h => by
    have h0 : b0 < 256 := h b0 (by simp)
    have h1 : b1 < 256 := h b1 (by simp)
    have h2 : b2 < 256 := h b2 (by simp)
    have ih := b64_roundtrip rest (fun b hb => h b (by simp [hb]))
    have e0 := charSextet_sextetChar (b0 / 4) (by omega)
    have e1 := charSextet_sextetChar ((b0 % 4) * 16 + b1 / 16) (by omega)
    have e2 := charSextet_sextetChar ((b1 % 16) * 4 + b2 / 64) (by omega)
    have e3 := charSextet_sextetChar (b2 % 64) (by omega)
    simp [b64EncodeChunks, b64DecodeChunks, sextetChar_ne_pad ((b1 % 16) * 4 + b2 / 64),
      sextetChar_ne_pad (b2 % 64), e0, e1, e2, e3, ih]
    refine ⟨by omega, by omega, by omega⟩

/-! ### Claim theorems -/

/-- C4: for every Deposited(from, amount, depositId) event, the matcher
advances exactly those sessions whose userAddress equals the lowercased
event sender and whose status is awaiting_deposit and for which
|amount − expectedAmount| ≤ tolerance with
tolerance = max(1, expectedAmount / 10000); a deposit at diff = tolerance
matches and at diff = tolerance + 1 does not (the ≤ in the third
conjunct), and an event matching no session mutates no session and
creates no job. -/
theorem c4_matcher_exact_tolerance (ev : DepositEvent) (ctx : Nat → EnqueueCtx)
    (st : SysState) (hna : ∀ s ∈ st.sessions, s.newAddress.isSome = true) :
    List.Forall₂ (MatchedRel (toLowerCase ev.from_) ev.amount ev.txHash)
      st.sessions (handleDepositedEvent ev ctx st).sessions ∧
    ((∀ s ∈ st.sessions, depositMatches (toLowerCase ev.from_) ev.amount s = false) →
      handleDepositedEvent ev ctx st = st) ∧
    (∀ (s : Session) (E : Int), parseBigInt? s.expectedAmount = some E → 0 ≤ E →
      (depositMatches (toLowerCase ev.from_) ev.amount s = true ↔
        (s.userAddress = (toLowerCase ev.from_) ∧
         s.status = SessionStatus.awaiting_deposit ∧
         |ev.amount - E| ≤ max 1 (bigDiv E 10000)))) :=
  ⟨handleDeposited_forall₂ ev ctx st hna,
   handleDeposited_noMatch ev ctx st,
   fun s E hE h0 => depositMatches_iff (toLowerCase ev.from_) ev.amount s E hE h0⟩

/-- C4 witness at a concrete store and event. -/
theorem c4_witness :
    List.Forall₂ (MatchedRel (toLowerCase cexEvent.from_) cexEvent.amount cexEvent.txHash)
      (⟨[cexSession], [], []⟩ : SysState).sessions
      (handleDepositedEvent cexEvent (fun _ => cexCtx) ⟨[cexSession], [], []⟩).sessions ∧
    ((∀ s ∈ (⟨[cexSession], [], []⟩ : SysState).sessions,
        depositMatches (toLowerCase cexEvent.from_) cexEvent.amount s = false) →
      handleDepositedEvent cexEvent (fun _ => cexCtx) ⟨[cexSession], [], []⟩ =
        ⟨[cexSession], [], []⟩) ∧
    (∀ (s : Session) (E : Int), parseBigInt? s.expectedAmount = some E → 0 ≤ E →
      (depositMatches (toLowerCase cexEvent.from_) cexEvent.amount s = true ↔
        (s.userAddress = (toLowerCase cexEvent.from_) ∧
         s.status = SessionStatus.awaiting_deposit ∧
         |cexEvent.amount - E| ≤ max 1 (bigDiv E 10000)))) :=
  c4_matcher_exact_tolerance cexEvent (fun _ => cexCtx) ⟨[cexSession], [], []⟩ (by decide)

/-- C5: for every session with expectedAmount E > 0 and newAddress
present, the engine computes
normalizedAmount = E + (E·ppm)/1000000 in exact integer arithmetic with
truncation toward zero, for any ppm in the sampled support −30..40, and
1000000·normalizedAmount lies between 1000000·E − 30·E and
1000000·E + 40·E (the claim's interval cleared of denominators). -/
theorem c5_jitter_bounds (ctx : EnqueueCtx) (session : Session)
    (jobs : List WithdrawalJob) (q : List String) (E : Int) (addr : String)
    (hna : session.newAddress = some addr)
    (hE : parseBigInt? session.expectedAmount = some E) (hE0 : 0 < E)
    (hp1 : -30 ≤ ctx.ppm) (hp2 : ctx.ppm ≤ 40) :
    ∃ s2 job, enqueueWithdrawal ctx session jobs q =
        .ok (s2, jobs ++ [job], q ++ [ctx.jobId]) ∧
      job.normalizedAmount = E + bigDiv (E * ctx.ppm) 1000000 ∧
      1000000 * E - 30 * E ≤ 1000000 * job.normalizedAmount ∧
      1000000 * job.normalizedAmount ≤ 1000000 * E + 40 * E := by
  refine ⟨_, _, enqueueWithdrawal_ok ctx session jobs q addr E hna hE, rfl, ?_, ?_⟩
  · exact normalized_lower E ctx.ppm (le_of_lt hE0) hp1
  · exact normalized_upper E ctx.ppm (le_of_lt hE0) hp2

/-- C5 witness at a concrete session and jitter draw. -/
theorem c5_witness :
    ∃ s2 job, enqueueWithdrawal cexCtx cexSession [] [] =
        .ok (s2, [] ++ [job], [] ++ [cexCtx.jobId]) ∧
      job.normalizedAmount = 2000000 + bigDiv (2000000 * cexCtx.ppm) 1000000 ∧
      1000000 * 2000000 - 30 * 2000000 ≤ 1000000 * job.normalizedAmount ∧
      1000000 * job.normalizedAmount ≤ 1000000 * 2000000 + 40 * 2000000 :=
  c5_jitter_bounds cexCtx cexSession [] [] 2000000 "0xNEW1" rfl (by decide)
    (by decide) (by decide) (by decide)

/-- C6 counterexample: the engine has no zero-amount guard.  The route
accepts depositAmount "0" (a truthy string), the matcher matches a
0-amount deposit (tolerance 1), and the engine then creates and queues a
withdrawal job whose normalizedAmount is 0 and advances the session to
withdrawal_queued — it neither fails the session nor suppresses the job,
contradicting the claimed fail-on-zero behaviour. -/
theorem c6_counterexample :
    c6State.pendingWithdrawals.map WithdrawalJob.normalizedAmount = [0] ∧
    c6State.sessions.map Session.status = [SessionStatus.withdrawal_queued] ∧
    c6State.queue = ["job1"] := by decide

/-- C6 amended: the engine performs no zero-amount check at all (with
expectedAmount 0 it dispatches a zero-amount job, see the
counterexample); however for every expectedAmount E ≥ 1 and every
sampled ppm in −30..40 the truncated normalizedAmount is at least 1 — and
for E = 1 it is exactly 1 — so the zero case never arises from jitter on
a positive expected amount and no dust transfer is dispatched for
expectedAmount = 1. -/
theorem c6_amended_no_zero_guard (ctx : EnqueueCtx) (session : Session)
    (jobs : List WithdrawalJob) (q : List String) (E : Int) (addr : String)
    (hna : session.newAddress = some addr)
    (hE : parseBigInt? session.expectedAmount = some E) (hE1 : 1 ≤ E)
    (hp1 : -30 ≤ ctx.ppm) (hp2 : ctx.ppm ≤ 40) :
    ∃ s2 job, enqueueWithdrawal ctx session jobs q =
        .ok (s2, jobs ++ [job], q ++ [ctx.jobId]) ∧
      1 ≤ job.normalizedAmount ∧ (E = 1 → job.normalizedAmount = 1) := by
  refine ⟨_, _, enqueueWithdrawal_ok ctx session jobs q addr E hna hE, ?_, ?_⟩
  · exact normalized_pos E ctx.ppm hE1 hp1
  · intro h1
    rw [h1]
    exact normalized_one ctx.ppm hp1 hp2

/-- C6 amended witness at expectedAmount 1. -/
theorem c6_amended_witness :
    ∃ s2 job, enqueueWithdrawal cexCtx { cexSession with expectedAmount := "1" } [] [] =
        .ok (s2, [] ++ [job], [] ++ [cexCtx.jobId]) ∧
      1 ≤ job.normalizedAmount ∧ ((1 : Int) = 1 → job.normalizedAmount = 1) :=
  c6_amended_no_zero_guard cexCtx { cexSession with expectedAmount := "1" } [] [] 1
    "0xNEW1" rfl (by decide) (by decide) (by decide) (by decide)

/-- C8: delivering the same Deposited event to the matcher twice (with
whatever fresh oracle draws the second delivery would consume) leaves the
session store, job table and queue exactly as one delivery left them: the
awaiting_deposit guard makes the second delivery a no-op. -/
theorem c8_replay_idempotent (ev : DepositEvent) (ctx ctx2 : Nat → EnqueueCtx)
    (st : SysState) (hna : ∀ s ∈ st.sessions, s.newAddress.isSome = true) :
    handleDepositedEvent ev ctx2 (handleDepositedEvent ev ctx st) =
      handleDepositedEvent ev ctx st :=
  handleDeposited_replay ev ctx ctx2 st hna

/-- C8 witness at a concrete store and event. -/
theorem c8_witness :
    handleDepositedEvent cexEvent (fun _ => cexCtx)
        (handleDepositedEvent cexEvent (fun _ => cexCtx) ⟨[cexSession], [], []⟩) =
      handleDepositedEvent cexEvent (fun _ => cexCtx) ⟨[cexSession], [], []⟩ :=
  c8_replay_idempotent cexEvent (fun _ => cexCtx) (fun _ => cexCtx)
    ⟨[cexSession], [], []⟩ (by decide)

/-- C1 counterexample: a Deposited event with depositId 7 matches the
stored session, but the matcher records only the deposit transaction
hash — the session's depositId stays none, the enqueued job's depositId
is none, and the withdrawal submission therefore passes depositId 0 to
operatorWithdraw, not the event's 7.  This contradicts the claim that the
matcher records depositId and that the same depositId reaches
operatorWithdraw. -/
theorem c1_counterexample :
    c1State.sessions.map Session.depositId = [none] ∧
    c1State.sessions.map Session.depositTxHash = [some "0xdep"] ∧
    c1State.pendingWithdrawals.map WithdrawalJob.depositId = [none] ∧
    depositIdForWithdraw none = 0 ∧ cexEvent.depositId = 7 := by decide

/-- C1 amended: the matcher records only depositTxHash on a matched
session (advancedSession keeps depositId untouched); in every reachable
state no session and no job carries a depositId, so the batch processor's
withdrawal submission always passes depositId 0 on-chain rather than the
event's depositId. -/
theorem c1_amended_depositId_never_recorded (st : SysState) (h : Reachable st) :
    (∀ s ∈ st.sessions, s.depositId = none) ∧
    (∀ j ∈ st.pendingWithdrawals, j.depositId = none) ∧
    (∀ (c : EnqueueCtx) (tx : String) (s : Session),
      (advancedSession c tx s).depositTxHash = some tx ∧
      (advancedSession c tx s).depositId = s.depositId) ∧
    depositIdForWithdraw none = 0 := by
  obtain ⟨hs, hj⟩ := reachable_storeInv st h
  exact ⟨fun s hsm => (hs s hsm).2.2, hj, fun c tx s => ⟨rfl, rfl⟩, rfl⟩

/-- C1 amended witness at a concretely reachable two-step state. -/
theorem c1_amended_witness :
    (∀ s ∈ c1State.sessions, s.depositId = none) ∧
    (∀ j ∈ c1State.pendingWithdrawals, j.depositId = none) ∧
    (∀ (c : EnqueueCtx) (tx : String) (s : Session),
      (advancedSession c tx s).depositTxHash = some tx ∧
      (advancedSession c tx s).depositId = s.depositId) ∧
    depositIdForWithdraw none = 0 := by
  have h0 : Reachable (requestWalletHandler (fun _ _ => some "0xAAA") cexTee "t1" "i1"
      "t0" { message := some "m", signature := some "sig",
             depositAmount := some "2000000", expectedAmount := none } ⟨[], [], []⟩).2 :=
    Reachable.request _ _ _ _ _ _ Reachable.init
  have he : (requestWalletHandler (fun _ _ => some "0xAAA") cexTee "t1" "i1"
      "t0" { message := some "m", signature := some "sig",
             depositAmount := some "2000000", expectedAmount := none } ⟨[], [], []⟩).2 =
      (⟨[cexSession], [], []⟩ : SysState) := by decide
  exact c1_amended_depositId_never_recorded c1State
    (Reachable.deposited cexEvent (fun _ => cexCtx) (he ▸ h0))

/-- C2 counterexample: the tick body of the batch processor holds no
in-flight guard, so when one interval callback is suspended awaiting its
withdrawal receipt and the next period fires, both callbacks pass the
pending/due checks for the same job and both invoke
sendFundsToNewAddress: the schedule below drives the two callbacks to a
final state whose submission counter for the single job is 2, with
neither callback skipped — contradicting the claimed single-flight
discipline and the claimed impossibility of a double submission. -/
theorem c2_counterexample :
    runSchedule ⟨true, true, 0, TickPhase.idle, TickPhase.idle⟩
        [ConcAct.pick1, ConcAct.pick2, ConcAct.submit1, ConcAct.submit2,
         ConcAct.settle1, ConcAct.settle2] =
      some ⟨false, false, 2, TickPhase.finished, TickPhase.finished⟩ := by decide

/-- C2 amended: the only concurrency guard in queue.js is the
batchIntervalStarted flag at the top of batchProcessor(): a second call
to batchProcessor() returns immediately and starts no second interval,
but the interval's ticks themselves are unguarded — an overlapping tick
is not skipped, and there is an interleaving of two tick callbacks that
submits the same pending job on-chain twice. -/
theorem c2_amended_start_guard_only :
    batchProcessorStart false = (true, true) ∧
    batchProcessorStart true = (false, true) ∧
    runSchedule ⟨true, true, 0, TickPhase.idle, TickPhase.idle⟩
        [ConcAct.pick2, ConcAct.pick1, ConcAct.submit2, ConcAct.submit1,
         ConcAct.settle2, ConcAct.settle1] =
      some ⟨false, false, 2, TickPhase.finished, TickPhase.finished⟩ := by decide

/-- C3 counterexample: a POST body carrying exactly the documented fields
message, signature, expectedAmount — with a recover oracle that succeeds,
modelling a valid ECDSA signature, and a well-formed positive decimal
expectedAmount — is rejected with 400 and stores no session, because the
handler reads the field depositAmount, which is absent.  The claim
requires 201 and a stored session for this request. -/
theorem c3_counterexample :
    requestWalletHandler (fun _ _ => some "0xAAAA") cexTee "tok" "sid" "t0"
        { message := some "obscura unlinker request 1700000000000",
          signature := some "0xsig", depositAmount := none,
          expectedAmount := some "2000000" } ⟨[], [], []⟩ =
      (⟨400, none, none⟩, ⟨[], [], []⟩) := by decide

/-- C3 amended: the body field the handler reads is depositAmount, not
the spec's expectedAmount.  When message, signature and depositAmount are
present and non-empty and signer recovery succeeds, the route returns 201
with the session token and fresh address and appends a session with
status awaiting_deposit, userAddress the lowercased recovered signer and
expectedAmount the depositAmount string stored verbatim — no numeric
validation is performed, so "0" or ill-formed strings are stored too.
When depositAmount is missing or empty the route returns 400 and stores
nothing. -/
theorem c3_amended_request_wallet (recover : String → String → Option String)
    (tee : TeeOutput) (tok sid nowIso : String) (m sg d signer : String)
    (e : Option String) (st : SysState)
    (hm : m ≠ "") (hs : sg ≠ "") (hd : d ≠ "")
    (hr : recover m sg = some signer) :
    requestWalletHandler recover tee tok sid nowIso
        { message := some m, signature := some sg, depositAmount := some d,
          expectedAmount := e } st =
      (⟨201, some tok, some tee.newAddress⟩,
       { st with sessions := st.sessions ++
          [{ id := sid, sessionToken := tok, userAddress := toLowerCase signer,
             expectedAmount := d, status := SessionStatus.awaiting_deposit,
             newAddress := some tee.newAddress,
             encryptedKeyForUser := some tee.encryptedKeyForUser,
             attestationReport := some tee.attestationReport,
             depositTxHash := none, depositId := none, withdrawTxHash := none,
             createdAt := nowIso, updatedAt := nowIso }] }) ∧
    (∀ body : RequestBody, truthy body.depositAmount = false →
      requestWalletHandler recover tee tok sid nowIso body st =
        (⟨400, none, none⟩, st)) := by
  constructor
  · unfold requestWalletHandler
    simp [truthy, hm, hs, hd, hr]
  · intro body hb
    unfold requestWalletHandler
    simp [hb]

/-- C3 amended witness at a concrete request. -/
theorem c3_amended_witness :
    requestWalletHandler (fun _ _ => some "0xAbC") cexTee "tok" "sid" "t0"
        { message := some "m", signature := some "sig", depositAmount := some "5",
          expectedAmount := none } ⟨[], [], []⟩ =
      (⟨201, some "tok", some cexTee.newAddress⟩,
       { (⟨[], [], []⟩ : SysState) with sessions := ([] : List Session) ++
          [{ id := "sid", sessionToken := "tok", userAddress := toLowerCase "0xAbC",
             expectedAmount := "5", status := SessionStatus.awaiting_deposit,
             newAddress := some cexTee.newAddress,
             encryptedKeyForUser := some cexTee.encryptedKeyForUser,
             attestationReport := some cexTee.attestationReport,
             depositTxHash := none, depositId := none, withdrawTxHash := none,
             createdAt := "t0", updatedAt := "t0" }] }) ∧
    (∀ body : RequestBody, truthy body.depositAmount = false →
      requestWalletHandler (fun _ _ => some "0xAbC") cexTee "tok" "sid" "t0" body
          ⟨[], [], []⟩ = (⟨400, none, none⟩, ⟨[], [], []⟩)) :=
  c3_amended_request_wallet (fun _ _ => some "0xAbC") cexTee "tok" "sid" "t0"
    "m" "sig" "5" "0xAbC" none ⟨[], [], []⟩ (by decide) (by decide) (by decide) rfl

/-- C10: in every state reachable through the server's entry points,
every stored session's status lies in the four assigned statuses
awaiting_deposit, deposit_detected, withdrawal_queued, completed — in
particular no operation ever assigns failed (a repeatedly failing
withdrawal leaves its session in withdrawal_queued since the failure path
touches only the job), and the stored type's extra wallet_generated
state is never assigned either. -/
theorem c10_status_invariant (st : SysState) (h : Reachable st) :
    ∀ s ∈ st.sessions, s.status ∈ activeStatuses ∧
      s.status ≠ SessionStatus.failed ∧ s.status ≠ SessionStatus.wallet_generated := by
  intro s hs
  have hi := ((reachable_storeInv st h).1 s hs).1
  refine ⟨hi, ?_, ?_⟩ <;> intro hc <;> rw [hc] at hi <;> simp [activeStatuses] at hi

/-- C10 witness: the session stored by a concrete request-wallet call is
in the four-status set and is neither failed nor wallet_generated. -/
theorem c10_witness :
    cexSession.status ∈ activeStatuses ∧
    cexSession.status ≠ SessionStatus.failed ∧
    cexSession.status ≠ SessionStatus.wallet_generated :=
  c10_status_invariant
    (requestWalletHandler (fun _ _ => some "0xAAA") cexTee "t1" "i1" "t0"
      { message := some "m", signature := some "sig",
        depositAmount := some "2000000", expectedAmount := none } ⟨[], [], []⟩).2
    (Reachable.request _ _ _ _ _ _ Reachable.init)
    cexSession (by decide)

/-- C7: within a batch-processor tick whose queue holds one due pending
job, a successful operatorWithdraw submission leaves the job removed from
both the queue and the job table while its session carries the
withdrawTxHash and status completed; a failed submission (including a
mined non-success receipt, which sendFundsToNewAddress turns into a
throw) leaves the sessions and the queue untouched and keeps the job
pending with executeAfter moved to the failure-time clock plus the
sampled 30–120 second backoff, removing nothing. -/
theorem c7_tick_success_and_failure (now : Int) (r : Nat → Nat)
    (outcome : String → SubmitOutcome) (st : SysState) (jid : String)
    (j : WithdrawalJob) (hq : st.queue = [jid])
    (hfind : st.pendingWithdrawals.find? (fun t => t.id = jid) = some j)
    (hp : j.status = JobStatus.pending) (hdue : j.executeAfter ≤ now) :
    (∀ tx iso, outcome j.id = SubmitOutcome.success tx iso →
      (processorTick now r outcome st).sessions =
        st.sessions.map (fun s => if s.sessionToken = j.sessionToken then
          { s with withdrawTxHash := some tx, status := SessionStatus.completed,
                   updatedAt := iso } else s) ∧
      (∀ t ∈ (processorTick now r outcome st).pendingWithdrawals, t.id ≠ j.id) ∧
      (processorTick now r outcome st).queue = []) ∧
    (∀ failNowMs delaySec, outcome j.id = SubmitOutcome.failure failNowMs delaySec →
      (processorTick now r outcome st).sessions = st.sessions ∧
      (processorTick now r outcome st).queue = st.queue ∧
      (processorTick now r outcome st).pendingWithdrawals =
        st.pendingWithdrawals.map (fun t => if t.id = j.id then
          { t with status := JobStatus.pending,
                   executeAfter := failNowMs + delaySec * 1000 } else t) ∧
      (30 ≤ delaySec → delaySec ≤ 120 →
        ∀ t ∈ (processorTick now r outcome st).pendingWithdrawals, t.id = j.id →
          t.status = JobStatus.pending ∧
          failNowMs + 30000 ≤ t.executeAfter ∧
          t.executeAfter ≤ failNowMs + 120000)) := by
  have hjid : j.id = jid := by simpa using List.find?_some hfind
  have hone : processorTick now r outcome st = processJob outcome st j := by
    unfold processorTick
    simp only []
    rw [hq, dueFilter_singleton st.pendingWithdrawals jid now j hfind hp hdue,
        fisherYates_singleton]
    rfl
  constructor
  · intro tx iso hout
    rw [hone]
    unfold processJob
    rw [hout]
    refine ⟨rfl, ?_, ?_⟩
    · intro t ht
      have := List.of_mem_filter ht
      simpa using this
    · rw [hq, hjid]
      simp
  · intro failNowMs delaySec hout
    rw [hone]
    unfold processJob
    rw [hout]
    refine ⟨rfl, rfl, rfl, ?_⟩
    intro hd1 hd2 t ht htid
    simp only [List.mem_map] at ht
    obtain ⟨t0, ht0, hte⟩ := ht
    by_cases h0 : t0.id = j.id
    · rw [if_pos h0] at hte
      rw [← hte]
      exact ⟨rfl, by simp; omega, by simp; omega⟩
    · rw [if_neg h0] at hte
      rw [← hte] at htid
      exact absurd htid h0

/-- C7 witness: a concrete successful tick over one due job. -/
theorem c7_witness :
    (∀ tx iso, (fun _ => SubmitOutcome.success "0xwd" "iso2") cexJob.id =
        SubmitOutcome.success tx iso →
      (processorTick 1000 (fun _ => 0) (fun _ => SubmitOutcome.success "0xwd" "iso2")
          c7Start).sessions =
        c7Start.sessions.map (fun s => if s.sessionToken = cexJob.sessionToken then
          { s with withdrawTxHash := some tx, status := SessionStatus.completed,
                   updatedAt := iso } else s) ∧
      (∀ t ∈ (processorTick 1000 (fun _ => 0)
          (fun _ => SubmitOutcome.success "0xwd" "iso2") c7Start).pendingWithdrawals,
        t.id ≠ cexJob.id) ∧
      (processorTick 1000 (fun _ => 0) (fun _ => SubmitOutcome.success "0xwd" "iso2")
          c7Start).queue = []) ∧
    (∀ failNowMs delaySec, (fun _ => SubmitOutcome.success "0xwd" "iso2") cexJob.id =
        SubmitOutcome.failure failNowMs delaySec →
      (processorTick 1000 (fun _ => 0) (fun _ => SubmitOutcome.success "0xwd" "iso2")
          c7Start).sessions = c7Start.sessions ∧
      (processorTick 1000 (fun _ => 0) (fun _ => SubmitOutcome.success "0xwd" "iso2")
          c7Start).queue = c7Start.queue ∧
      (processorTick 1000 (fun _ => 0) (fun _ => SubmitOutcome.success "0xwd" "iso2")
          c7Start).pendingWithdrawals =
        c7Start.pendingWithdrawals.map (fun t => if t.id = cexJob.id then
          { t with status := JobStatus.pending,
                   executeAfter := failNowMs + delaySec * 1000 } else t) ∧
      (30 ≤ delaySec → delaySec ≤ 120 →
        ∀ t ∈ (processorTick 1000 (fun _ => 0)
            (fun _ => SubmitOutcome.success "0xwd" "iso2") c7Start).pendingWithdrawals,
          t.id = cexJob.id →
          t.status = JobStatus.pending ∧
          failNowMs + 30000 ≤ t.executeAfter ∧
          t.executeAfter ≤ failNowMs + 120000)) :=
  c7_tick_success_and_failure 1000 (fun _ => 0)
    (fun _ => SubmitOutcome.success "0xwd" "iso2") c7Start "job1" cexJob rfl
    (by decide) rfl (by decide)

/-- C9: for any cipher with the AES-256-GCM facts as hypotheses
(ciphertext as long as the 32-byte plaintext, 16-byte tag, decryption
inverting encryption), the enclave's encryptedKeyForUser is the base64
encoding of wrappingKey(32) ‖ nonce(12) ‖ authTag(16) ‖ ciphertext(32) —
92 bytes before encoding — and base64-decoding it and AES-256-GCM
decrypting with the embedded wrapping key, nonce and tag (the
repository's own decoder) recovers the raw 32-byte private key, whose
derived address is exactly the session's newAddress. -/
theorem c9_wrapped_key_roundtrip (aead : Aead) (ethAddr : List Nat → String)
    (pk wk iv ct tag : List Nat) (keyRef att : String)
    (henc : aead.enc wk iv pk = (ct, tag))
    (hpkLen : pk.length = 32) (hwkLen : wk.length = 32) (hivLen : iv.length = 12)
    (hctLen : ct.length = 32) (htagLen : tag.length = 16)
    (hwkB : ∀ b ∈ wk, b < 256) (hivB : ∀ b ∈ iv, b < 256)
    (hctB : ∀ b ∈ ct, b < 256) (htagB : ∀ b ∈ tag, b < 256)
    (hdec : aead.dec wk iv ct tag = some pk) :
    b64Decode (generatePrivateKeyInsideTEE aead ethAddr pk wk iv keyRef
        att).encryptedKeyForUser = some (wk ++ iv ++ tag ++ ct) ∧
    (wk ++ iv ++ tag ++ ct).length = 92 ∧
    decodeEncryptedPrivateKey aead (generatePrivateKeyInsideTEE aead ethAddr pk wk iv
        keyRef att).encryptedKeyForUser = some pk ∧ pk.length = 32 ∧
    (generatePrivateKeyInsideTEE aead ethAddr pk wk iv keyRef att).newAddress =
      ethAddr pk := by
  have hblob : (generatePrivateKeyInsideTEE aead ethAddr pk wk iv keyRef
      att).encryptedKeyForUser = b64Encode (wk ++ iv ++ tag ++ ct) := by
    unfold generatePrivateKeyInsideTEE encryptForUser
    simp only [henc]
  have hbytes : ∀ b ∈ wk ++ iv ++ tag ++ ct, b < 256 := by
    intro b hb
    simp only [List.mem_append] at hb
    rcases hb with ((hb | hb) | hb) | hb
    · exact hwkB b hb
    · exact hivB b hb
    · exact htagB b hb
    · exact hctB b hb
  have hrt : b64Decode (b64Encode (wk ++ iv ++ tag ++ ct)) =
      some (wk ++ iv ++ tag ++ ct) := by
    unfold b64Decode b64Encode
    exact b64_roundtrip _ hbytes
  have hlen92 : (wk ++ iv ++ tag ++ ct).length = 92 := by
    simp [hwkLen, hivLen, htagLen, hctLen]
  have hdecode : decodeEncryptedPrivateKey aead (generatePrivateKeyInsideTEE aead
      ethAddr pk wk iv keyRef att).encryptedKeyForUser = some pk := by
    rw [hblob]
    unfold decodeEncryptedPrivateKey
    rw [hrt]
    have h1 : List.take 32 (wk ++ (iv ++ (tag ++ ct))) = wk := List.take_left' hwkLen
    have h2 : List.take 12 (List.drop 32 (wk ++ (iv ++ (tag ++ ct)))) = iv := by
      rw [List.drop_left' hwkLen]
      exact List.take_left' hivLen
    have h3 : List.take 16 (List.drop 44 (wk ++ (iv ++ (tag ++ ct)))) = tag := by
      rw [← List.append_assoc wk iv (tag ++ ct),
          List.drop_left' (by simp [hwkLen, hivLen])]
      exact List.take_left' htagLen
    have h4 : List.drop 60 (wk ++ (iv ++ (tag ++ ct))) = ct := by
      rw [← List.append_assoc iv tag ct, ← List.append_assoc wk (iv ++ tag) ct]
      exact List.drop_left' (by simp [hwkLen, hivLen, htagLen])
    simp [hwkLen, hivLen, htagLen, hctLen, h1, h2, h3, h4, hdec]
  exact ⟨hblob ▸ hrt, hlen92, hdecode, hpkLen, rfl⟩

/-- C9 witness at concrete key material and a concrete length-preserving
invertible cipher. -/
theorem c9_witness :
    b64Decode (generatePrivateKeyInsideTEE cexAead (fun _ => "0xderived")
        (List.replicate 32 5) (List.replicate 32 1) (List.replicate 12 2) "kr"
        "att").encryptedKeyForUser =
      some (List.replicate 32 1 ++ List.replicate 12 2 ++ List.replicate 16 0 ++
        List.replicate 32 5) ∧
    (List.replicate 32 1 ++ List.replicate 12 2 ++ List.replicate 16 0 ++
      List.replicate 32 5).length = 92 ∧
    decodeEncryptedPrivateKey cexAead (generatePrivateKeyInsideTEE cexAead
        (fun _ => "0xderived") (List.replicate 32 5) (List.replicate 32 1)
        (List.replicate 12 2) "kr" "att").encryptedKeyForUser =
      some (List.replicate 32 5) ∧ (List.replicate 32 5).length = 32 ∧
    (generatePrivateKeyInsideTEE cexAead (fun _ => "0xderived")
        (List.replicate 32 5) (List.replicate 32 1) (List.replicate 12 2) "kr"
        "att").newAddress = (fun _ : List Nat => "0xderived") (List.replicate 32 5) :=
  c9_wrapped_key_roundtrip cexAead (fun _ => "0xderived") (List.replicate 32 5)
    (List.replicate 32 1) (List.replicate 12 2) (List.replicate 32 5)
    (List.replicate 16 0) "kr" "att" rfl (by decide) (by decide) (by decide)
    (by decide) (by decide) (by decide) (by decide) (by decide) (by decide) rfl

end Obscura
